import Mathlib

/-!
Verification of the optionboard quantitative core against its specification.

This file shallowly embeds, over exact real/integer arithmetic, the parts of
the source that the checked properties are about:

* `backend/config.py`   — the configuration constants (trading calendar,
  volatility window, solver parameters, futures month codes);
* `backend/services.py` — the scalar Black-76 pricer and Greeks, the
  historical-volatility estimator `hist_vol`, the trading-calendar function
  `expiry_time` and the futures roll selector `actual_futures`;
* `backend/vectorized_calculations.py` — the per-row bodies of the numba
  batch kernels, the batch driver `calculate_all_options_params_numba`
  and the wrapper `process_asset_options`;
* `backend/http_client.py` — the fetch-day list construction of
  `MOEXClient.load_candles` and the per-day request window of
  `services.candles`.

Modelling conventions:

* Python floats are modelled as exact reals (`ℝ`); float `NaN`/`inf` do not
  exist in the model, so `np.isfinite` tests are identically true and
  `math.isnan` tests identically false.  Divergences that exist only at the
  level of IEEE-754 round-off are reported in prose, not as Lean theorems.
* `scipy.stats.norm.cdf` and `norm.pdf` (and their erf-based numba
  re-implementations) are external library functions; they are abstracted as
  function parameters `Phi` and `phi` of the embedded definitions.  All
  degenerate-branch facts hold for every `Phi`/`phi`; put-call parity needs
  only the symmetry `Phi x + Phi (-x) = 1` of the true normal CDF.
* Python `round(x, n)` is modelled as rounding `x * 10^n` to the nearest
  integer.  Python uses banker's rounding at exact halfway ties while
  Mathlib's `round` rounds half up; no statement in this file evaluates a
  rounding at an exact tie.
* `datetime` values are modelled as counts of seconds (for `expiry_time`)
  or minutes (for `load_candles`) from an epoch; calendar dates for the roll
  selector are modelled by a proleptic-Gregorian rata-die day number, whose
  day 1 (0001-01-01) is a Monday, matching `datetime.weekday()`.
-/

namespace OptionBoard

/-! ## Configuration constants (backend/config.py) -/

/-- settings.TRADING_DAYS_PER_YEAR -/
def TRADING_DAYS_PER_YEAR : ℕ := 252

/-- settings.MINUTES_PER_DAY -/
def MINUTES_PER_DAY : ℕ := 865

/-- settings.HIST_WINDOW_MINUTES = TRADING_DAYS_PER_YEAR * MINUTES_PER_DAY // 12 -/
def HIST_WINDOW_MINUTES : ℕ := TRADING_DAYS_PER_YEAR * MINUTES_PER_DAY / 12

/-- settings.IV_RATE -/
noncomputable def IV_RATE : ℝ := 19 / 100

/-- The epsilon threshold 1e-10 used throughout the numba kernels and the
batch validity mask. -/
noncomputable def EPS : ℝ := 1 / 10 ^ 10

/-! ## Scalar Black-76 pricer and Greeks (backend/services.py)

The normal CDF `Phi` and PDF `phi` are abstract parameters (see the header).
`option_type` is the Python string argument, `"C"` for a call; as in the
source, any other string is treated as a put. -/

/-- Python `round(x, n)`: round `x` to `n` decimal digits (see the header
note on halfway ties). -/
noncomputable def pyRound (n : ℕ) (x : ℝ) : ℝ := (round (x * 10 ^ n) : ℤ) / 10 ^ n

/-- services.black76_price. -/
noncomputable def black76_price (Phi : ℝ → ℝ) (F0 K T r sigma : ℝ)
    (option_type : String) : ℝ :=
  if T ≤ 0 ∨ sigma ≤ 0 then
    let intrinsic : ℝ := if option_type = "C" then max (F0 - K) 0 else max (K - F0) 0
    Real.exp (-r * T) * intrinsic
  else
    let d1 := (Real.log (F0 / K) + 0.5 * sigma ^ 2 * T) / (sigma * Real.sqrt T)
    let d2 := d1 - sigma * Real.sqrt T
    let df := Real.exp (-r * T)
    if option_type = "C" then df * (F0 * Phi d1 - K * Phi d2)
    else df * (K * Phi (-d2) - F0 * Phi (-d1))

/-- services._validate_positive applied to the triple (F0, K, sigma).
Python also rejects `None` and float NaN, which do not exist in the model. -/
def validate_positive (F0 K sigma : ℝ) : Prop := 0 < F0 ∧ 0 < K ∧ 0 < sigma

noncomputable instance (F0 K sigma : ℝ) : Decidable (validate_positive F0 K sigma) := by
  unfold validate_positive; infer_instance

/-- services.delta. -/
noncomputable def delta (Phi : ℝ → ℝ) (F0 K T r sigma : ℝ)
    (option_type : String) : ℝ :=
  if ¬validate_positive F0 K sigma ∨ T ≤ 0 then 0
  else
    let d1 := (Real.log (F0 / K) + 0.5 * sigma ^ 2 * T) / (sigma * Real.sqrt T)
    let discount := Real.exp (-r * T)
    pyRound 5 (if option_type = "C" then discount * Phi d1 else -discount * Phi (-d1))

/-- services.gamma. -/
noncomputable def gamma (phi : ℝ → ℝ) (F0 K T r sigma : ℝ) : ℝ :=
  if ¬validate_positive F0 K sigma ∨ T ≤ 0 then 0
  else
    let d1 := (Real.log (F0 / K) + 0.5 * sigma ^ 2 * T) / (sigma * Real.sqrt T)
    let discount := Real.exp (-r * T)
    pyRound 5 (discount * phi d1 / (F0 * sigma * Real.sqrt T))

/-- services.vega. -/
noncomputable def vega (phi : ℝ → ℝ) (F0 K T r sigma : ℝ) : ℝ :=
  if ¬validate_positive F0 K sigma ∨ T ≤ 0 then 0
  else
    let d1 := (Real.log (F0 / K) + 0.5 * sigma ^ 2 * T) / (sigma * Real.sqrt T)
    let discount := Real.exp (-r * T)
    (discount * F0 * phi d1 * Real.sqrt T) / 100

/-- services.theta (takes time to expiry in minutes). -/
noncomputable def theta (Phi phi : ℝ → ℝ) (F0 K T_minutes r sigma : ℝ)
    (option_type : String) : ℝ :=
  let T_years := T_minutes / (TRADING_DAYS_PER_YEAR * MINUTES_PER_DAY : ℕ)
  if T_years ≤ 0 ∨ ¬validate_positive F0 K sigma then 0
  else
    let d1 := (Real.log (F0 / K) + 0.5 * sigma ^ 2 * T_years) / (sigma * Real.sqrt T_years)
    let d2 := d1 - sigma * Real.sqrt T_years
    let discount := Real.exp (-r * T_years)
    let term2 :=
      if option_type = "C" then -r * discount * (F0 * Phi d1 - K * Phi d2)
      else -r * discount * (-F0 * Phi (-d1) + K * Phi (-d2))
    let term1 := -discount * F0 * phi d1 * sigma / (2 * Real.sqrt T_years)
    pyRound 6 ((term1 + term2) / TRADING_DAYS_PER_YEAR)

/-! ## Per-row bodies of the numba kernels (backend/vectorized_calculations.py)

Each `jit` kernel loops `for i in prange(n)` over parallel arrays and fills
`result[i]` from the row-`i` entries only; the definitions below are the loop
bodies for one row.  `ot` is the option-type code of the row: 0 for a call,
anything else (the driver writes 1) for a put. -/

/-- Loop body of calculate_d1_d2_numba. -/
noncomputable def d1_d2_numba (F0 K T sigma : ℝ) : ℝ × ℝ :=
  if T ≤ EPS ∨ sigma ≤ EPS ∨ F0 ≤ EPS ∨ K ≤ EPS then (0, 0)
  else if Real.sqrt T ≤ EPS then (0, 0)
  else
    let d1 := (Real.log (F0 / K) + 0.5 * sigma ^ 2 * T) / (sigma * Real.sqrt T)
    (d1, d1 - sigma * Real.sqrt T)

/-- Loop body of calculate_black76_numba.  Note that on the degenerate branch
the source returns the bare intrinsic value, without the discount factor. -/
noncomputable def black76_numba (Phi : ℝ → ℝ) (F0 K T r sigma : ℝ) (ot : ℤ)
    (d1 d2 : ℝ) : ℝ :=
  if T ≤ EPS ∨ sigma ≤ EPS ∨ F0 ≤ EPS ∨ K ≤ EPS then
    if ot = 0 then max (F0 - K) 0 else max (K - F0) 0
  else
    let discount := Real.exp (-r * T)
    if ot = 0 then discount * (F0 * Phi d1 - K * Phi d2)
    else discount * (K * Phi (-d2) - F0 * Phi (-d1))

/-- Loop body of calculate_delta_numba.  On the degenerate branch the source
returns bare ±1 (not scaled by the discount factor) when F0 > 0; the branch
tests only T and F0, not sigma. -/
noncomputable def delta_numba (Phi : ℝ → ℝ) (F0 T r : ℝ) (ot : ℤ) (d1 : ℝ) : ℝ :=
  if T ≤ EPS ∨ F0 ≤ EPS then
    if ot = 0 then (if 0 < F0 then 1 else 0) else (if 0 < F0 then -1 else 0)
  else
    let discount := Real.exp (-r * T)
    if ot = 0 then discount * Phi d1 else -discount * Phi (-d1)

/-- Loop body of calculate_gamma_numba. -/
noncomputable def gamma_numba (phi : ℝ → ℝ) (F0 T r sigma : ℝ) (d1 : ℝ) : ℝ :=
  if T ≤ EPS ∨ sigma ≤ EPS ∨ F0 ≤ EPS then 0
  else if Real.sqrt T ≤ EPS then 0
  else Real.exp (-r * T) * phi d1 / (F0 * sigma * Real.sqrt T)

/-- Loop body of calculate_vega_numba. -/
noncomputable def vega_numba (phi : ℝ → ℝ) (F0 T r : ℝ) (d1 : ℝ) : ℝ :=
  if T ≤ EPS ∨ F0 ≤ EPS then 0
  else if Real.sqrt T ≤ EPS then 0
  else Real.exp (-r * T) * F0 * phi d1 * Real.sqrt T / 100

/-- Loop body of calculate_theta_numba. -/
noncomputable def theta_numba (Phi phi : ℝ → ℝ) (F0 K T r sigma : ℝ) (ot : ℤ)
    (d1 d2 : ℝ) (trading_days_per_year : ℝ) : ℝ :=
  if T ≤ EPS ∨ sigma ≤ EPS ∨ F0 ≤ EPS ∨ K ≤ EPS then 0
  else if Real.sqrt T ≤ EPS then 0
  else
    let discount := Real.exp (-r * T)
    let pdf_d1 := phi d1
    let term1 := -discount * F0 * pdf_d1 * sigma / (2 * Real.sqrt T)
    let term2 :=
      if ot = 0 then -r * discount * (F0 * Phi d1 - K * Phi d2)
      else -r * discount * (-F0 * Phi (-d1) + K * Phi (-d2))
    (term1 + term2) / trading_days_per_year

/-- Loop body of calculate_gex_numba. -/
noncomputable def gex_numba (F0 T gammaVal : ℝ) (ot : ℤ) (oi multiplier : ℝ) : ℝ :=
  if T ≤ EPS ∨ F0 ≤ EPS ∨ gammaVal ≤ -(10 ^ 10 : ℝ) ∨ oi ≤ -(10 ^ 10 : ℝ) then 0
  else (if ot = 0 then 1 else -1) * gammaVal * (F0 * F0) * oi * multiplier

/-! ## Batch driver (vectorized_calculations.calculate_all_options_params_numba)

An option record is the loosely typed dict filled by `MOEXClient.get_options`;
the fields the driver reads are modelled typed (the redis documents always
carry floats/strings there), and the eight analytic output fields are
`Option ℝ`, `none` meaning the key is absent from the dict.

The driver's time-to-expiry call `expiry_time(expiry_date)` reads the wall
clock, so it is abstracted as a parameter `em : String → Option ℕ`, where
`none` models `datetime.strptime` raising `ValueError` on a malformed date
string and `some k` the returned minute count at the ambient current time.
A raised exception escaping a function is modelled by `Except.error ()`. -/

structure OptRec where
  UNDERLYINGSETTLEPRICE : ℝ
  STRIKE : ℝ
  LASTTRADEDATE : Option String
  OPTIONTYPE : String
  PREVOPENPOSITION : ℝ
  HIST_VOL : Option ℝ := none
  IMPLIED_VOL : Option ℝ := none
  THEORETICAL_PRICE : Option ℝ := none
  DELTA : Option ℝ := none
  GAMMA : Option ℝ := none
  VEGA : Option ℝ := none
  THETA : Option ℝ := none
  GEX : Option ℝ := none

/-- The `round(float(x), d) if abs(x) > 1e-10 else 0.0` idiom of the driver's
result-update loop. -/
noncomputable def chop (d : ℕ) (x : ℝ) : ℝ := if EPS < |x| then pyRound d x else 0

/-- T_minutes_array entry of a record: `float(expiry_time(d) or 0)` when a
LASTTRADEDATE is present, `0.0` otherwise (`or 0` maps the integer 0 to 0). -/
noncomputable def tMinutesOf (em : String → Option ℕ) (r : OptRec) : ℝ :=
  match r.LASTTRADEDATE with
  | some s => ((em s).getD 0 : ℕ)
  | none => 0

/-- The driver's validity mask for one row: T_years, sigma, F0, K all above
1e-10 (the `np.isfinite` conjuncts are identically true over exact reals). -/
noncomputable def rowValid (em : String → Option ℕ) (hv : ℝ) (r : OptRec) : Prop :=
  EPS < tMinutesOf em r / ((TRADING_DAYS_PER_YEAR : ℝ) * (MINUTES_PER_DAY : ℝ)) ∧
    EPS < hv ∧ EPS < r.UNDERLYINGSETTLEPRICE ∧ EPS < r.STRIKE

noncomputable instance (em : String → Option ℕ) (hv : ℝ) (r : OptRec) :
    Decidable (rowValid em hv r) := by
  unfold rowValid; infer_instance

/-- Field update performed by the driver's `except` handler on every record
after an exception inside the `try` block. -/
noncomputable def fillFailure (hv : ℝ) (r : OptRec) : OptRec :=
  { r with
    HIST_VOL := some (pyRound 4 hv), IMPLIED_VOL := some (pyRound 4 hv),
    THEORETICAL_PRICE := some 0, DELTA := some 0, GAMMA := some 0,
    VEGA := some 0, THETA := some 0, GEX := some 0 }

/-- Field update performed by the driver's result loop for one record.  A
record failing the validity mask keeps the zero-initialised result arrays,
so its price and Greeks are written as 0.0; a valid record gets the kernel
values put through `chop`.  CONTRACT_MULTIPLIER and GEX_DECIMALS are absent
from settings, so their `getattr` defaults 1.0 and 6 apply. -/
noncomputable def enrichRow (Phi phi : ℝ → ℝ) (em : String → Option ℕ) (hv : ℝ)
    (r : OptRec) : OptRec :=
  let F0 := r.UNDERLYINGSETTLEPRICE
  let K := r.STRIKE
  let T_years := tMinutesOf em r / ((TRADING_DAYS_PER_YEAR : ℝ) * (MINUTES_PER_DAY : ℝ))
  let ot : ℤ := if r.OPTIONTYPE.toUpper = "C" then 0 else 1
  let oi := r.PREVOPENPOSITION
  if rowValid em hv r then
    let dd := d1_d2_numba F0 K T_years hv
    let price := black76_numba Phi F0 K T_years IV_RATE hv ot dd.1 dd.2
    let deltaV := delta_numba Phi F0 T_years IV_RATE ot dd.1
    let gammaV := gamma_numba phi F0 T_years IV_RATE hv dd.1
    let vegaV := vega_numba phi F0 T_years IV_RATE dd.1
    let thetaV := theta_numba Phi phi F0 K T_years IV_RATE hv ot dd.1 dd.2
      (TRADING_DAYS_PER_YEAR : ℝ)
    let gexV := gex_numba F0 T_years gammaV ot oi 1
    { r with
      HIST_VOL := some (pyRound 4 hv), IMPLIED_VOL := some (pyRound 4 hv),
      THEORETICAL_PRICE := some (chop 2 price), DELTA := some (chop 6 deltaV),
      GAMMA := some (chop 6 gammaV), VEGA := some (chop 6 vegaV),
      THETA := some (chop 6 thetaV), GEX := some (chop 6 gexV) }
  else
    { r with
      HIST_VOL := some (pyRound 4 hv), IMPLIED_VOL := some (pyRound 4 hv),
      THEORETICAL_PRICE := some 0, DELTA := some 0, GAMMA := some 0,
      VEGA := some 0, THETA := some 0, GEX := some 0 }

/-- vectorized_calculations.calculate_all_options_params_numba.

Control flow of the source: `n == 0` returns the list untouched before the
`try`.  Inside the `try`, a malformed LASTTRADEDATE makes `expiry_time`
raise, and the `except` handler then zero-fills every record.  When
`hist_vol_value` is `None`, `round(float(None), 4)` raises `TypeError` in the
result loop, the `except` handler re-raises on its own identical first line,
and the exception escapes to the caller (`Except.error`). -/
noncomputable def calculate_all_options_params_numba (Phi phi : ℝ → ℝ)
    (em : String → Option ℕ) (options_data : List OptRec) (hist_vol_value : Option ℝ) :
    Except Unit (List OptRec) :=
  if options_data.isEmpty then .ok options_data
  else
    match hist_vol_value with
    | none => .error ()
    | some v =>
      if options_data.any (fun r =>
          match r.LASTTRADEDATE with
          | some s => (em s).isNone
          | none => false) then
        .ok (options_data.map (fillFailure v))
      else
        .ok (options_data.map (enrichRow Phi phi em v))

/-- vectorized_calculations.process_asset_options: runs the driver in an
executor and returns the original list if anything was raised. -/
noncomputable def process_asset_options (Phi phi : ℝ → ℝ) (em : String → Option ℕ)
    (options_data : List OptRec) (hist_vol_value : Option ℝ) : List OptRec :=
  match calculate_all_options_params_numba Phi phi em options_data hist_vol_value with
  | .ok processed => processed
  | .error _ => options_data

/-! ## Historical volatility (services.hist_vol)

`get_candles_from_db` rows are `(timestamp, close)` pairs; timestamps are
modelled as naturals, closes as reals.  The numpy prefix-sum extraction of
the final rolling window is mirrored literally: `cumsumAt l k` is entry `k`
of `np.cumsum(np.insert(l, 0, 0.0))`, i.e. the sum of the first `k`
elements. -/

/-- Entry `k` of the cumulative-sum array with a leading zero inserted. -/
noncomputable def cumsumAt (l : List ℝ) (k : ℕ) : ℝ := (l.take k).sum

/-- Last entry of the `rolling_var` array of services.hist_vol for window
`n`: mean and variance of the final `n` log returns, via cumulative-sum
differences, with no clamping of the variance before the square root. -/
noncomputable def rollingVarLast (n : ℕ) (l : List ℝ) : ℝ :=
  let m := l.length
  let sq := l.map (fun x => x ^ 2)
  let rolling_mean := (cumsumAt l m - cumsumAt l (m - n)) / n
  (cumsumAt sq m - cumsumAt sq (m - n)) / n - rolling_mean ^ 2

/-- np.diff: consecutive differences of a list. -/
noncomputable def npDiff (l : List ℝ) : List ℝ := List.zipWith (fun x y => y - x) l l.tail

/-- services.hist_vol on the `(timestamp, close)` rows fetched from the
store.  Returns `none` when there are no rows or fewer log returns than the
configured window; otherwise the annualised rolling standard deviation of
the last window, rounded to 4 decimals. -/
noncomputable def hist_vol (data : List (ℕ × ℝ)) : Option ℝ :=
  if data.isEmpty then none
  else
    let data_sorted := data.mergeSort (fun a b => decide (a.1 ≤ b.1))
    let prices := data_sorted.map Prod.snd
    let log_returns := npDiff (prices.map Real.log)
    if log_returns.length < HIST_WINDOW_MINUTES then none
    else
      let rolling_std := Real.sqrt (rollingVarLast HIST_WINDOW_MINUTES log_returns)
      some (pyRound 4 (rolling_std *
        Real.sqrt ((TRADING_DAYS_PER_YEAR : ℝ) * (MINUTES_PER_DAY : ℝ))))

/-! ## Trading calendar (services.expiry_time)

Instants are whole seconds from an epoch: `now = day * 86400 + secOfDay`.
Day numbers are proleptic-Gregorian rata-die numbers so that
`weekdayOf day = day.weekday()` with Monday = 0 (rata die 1, 0001-01-01, is
a Monday).  Python datetimes carry microseconds, but every quantity the
function compares or subtracts is floored to whole seconds by
`timedelta.seconds`, so second granularity is faithful.  The configured
holiday list is a parameter `holidays` (a set of day numbers); every theorem
below holds for an arbitrary holiday set, in particular for the configured
one. -/

/-- Weekday of a rata-die day number, Monday = 0 (as `datetime.weekday()`). -/
def weekdayOf (day : ℕ) : ℕ := (day + 6) % 7

/-- settings.TRADING_START (9:00) in seconds of day. -/
def TRADING_START_S : ℕ := 9 * 3600

/-- settings.TRADING_END (23:50) in seconds of day. -/
def TRADING_END_S : ℕ := 23 * 3600 + 50 * 60

/-- settings.EXPIRY_END (18:50) in seconds of day. -/
def EXPIRY_END_S : ℕ := 18 * 3600 + 50 * 60

/-- settings.CLEARING_PERIODS ([14:00, 14:05] and [18:50, 19:05]) in seconds
of day. -/
def CLEARING_PERIODS_S : List (ℕ × ℕ) :=
  [(14 * 3600, 14 * 3600 + 5 * 60), (18 * 3600 + 50 * 60, 19 * 3600 + 5 * 60)]

/-- Minutes contributed by one day of the `expiry_time` walk, as a function
of whether the day is the expiry day and of the session-start offset `a`
within the day (already clamped to `now` when the day is today).  The body
mirrors the source: whole-minute floor of the session length, minus the
whole-minute floor of each clearing overlap, with clearings starting
at-or-after EXPIRY_END skipped on the expiry day. -/
def dayCore (expiryDay : Bool) (a : ℕ) : ℤ :=
  let b := if expiryDay then EXPIRY_END_S else TRADING_END_S
  if a < b then
    ((b - a) / 60 : ℕ) -
      (CLEARING_PERIODS_S.map (fun p =>
        if expiryDay ∧ EXPIRY_END_S ≤ p.1 then (0 : ℤ)
        else
          let os := max a p.1
          let oe := min b p.2
          if os < oe then ((oe - os) / 60 : ℕ) else 0)).sum
  else 0

/-- Contribution of calendar day `cur` to `expiry_time holidays e now`:
weekends and holidays are skipped, the session start is clamped to `now`
when `cur` is today and `now` is already past the trading start. -/
def dayMinutes (holidays : List ℕ) (e now cur : ℕ) : ℤ :=
  if 5 ≤ weekdayOf cur ∨ cur ∈ holidays then 0
  else
    dayCore (cur = e)
      (if cur = now / 86400 ∧ cur * 86400 + TRADING_START_S < now then now % 86400
       else TRADING_START_S)

/-- services.expiry_time: trading minutes between `now` and the close of the
expiry day `e` (both in the second/rata-die encoding above).  Zero once
`now` is past the expiry date or at-or-past EXPIRY_END on the expiry day;
otherwise the sum of the per-day contributions from today through `e`. -/
def expiry_time (holidays : List ℕ) (e now : ℕ) : ℤ :=
  let today := now / 86400
  if e < today ∨ (today = e ∧ EXPIRY_END_S ≤ now % 86400) then 0
  else ((List.range (e + 1 - today)).map (fun k => dayMinutes holidays e now (today + k))).sum

/-! ## Futures roll selector (services.actual_futures)

Calendar dates are `(year, month, day)` triples of the proleptic Gregorian
calendar; `rataDie` is the standard day count (0001-01-01 = day 1), used
only to compute weekdays.  A Python `datetime` carries a time of day as
well; `datetime` comparison is lexicographic on (date, time), and the
expiry candidates are midnight datetimes, so `current_date < expiry` is
exactly the lexicographic order on date triples (at an equal date the
candidate's time 00:00 is minimal, hence never greater). -/

/-- Gregorian leap-year test. -/
def leapB (y : ℕ) : Bool := y % 4 = 0 ∧ (y % 100 ≠ 0 ∨ y % 400 = 0)

/-- Length of month `m` of year `y`. -/
def monthLen (y m : ℕ) : ℕ :=
  if m = 1 then 31 else if m = 2 then (if leapB y then 29 else 28)
  else if m = 3 then 31 else if m = 4 then 30 else if m = 5 then 31
  else if m = 6 then 30 else if m = 7 then 31 else if m = 8 then 31
  else if m = 9 then 30 else if m = 10 then 31 else if m = 11 then 30 else 31

/-- Days of year `y` strictly before month `m`. -/
def daysBeforeMonth (y m : ℕ) : ℕ :=
  ((List.range (m - 1)).map (fun i => monthLen y (i + 1))).sum

/-- Rata-die day number of `(y, m, d)` (0001-01-01 = 1). -/
def rataDie (y m d : ℕ) : ℕ :=
  365 * (y - 1) + (y - 1) / 4 + (y - 1) / 400 + daysBeforeMonth y m + d - (y - 1) / 100

/-- Weekday of a calendar date, Monday = 0. -/
def weekdayYMD (y m d : ℕ) : ℕ := weekdayOf (rataDie y m d)

/-- services.get_third_thursday: the third day of month `m` of year `y`
whose weekday is Thursday (= 3), as a date triple.  Every month has at
least four Thursdays, so the index-2 lookup always succeeds. -/
def get_third_thursday (y m : ℕ) : ℕ × ℕ × ℕ :=
  let thursdays := ((List.range (monthLen y m)).map (fun k => k + 1)).filter
    (fun d => weekdayYMD y m d = 3)
  (y, m, thursdays.getD 2 0)

/-- Fuel-bounded loop of services.get_first_business_day: advance from the
1st while the weekday is Saturday or Sunday.  The loop body runs at most
twice, so fuel 7 is exact. -/
def fbdAux : ℕ → ℕ → ℕ → ℕ → ℕ × ℕ × ℕ
  | 0, y, m, d => (y, m, d)
  | fuel + 1, y, m, d =>
    if 5 ≤ weekdayYMD y m d then fbdAux fuel y m (d + 1) else (y, m, d)

/-- services.get_first_business_day as a date triple. -/
def get_first_business_day (y m : ℕ) : ℕ × ℕ × ℕ := fbdAux 7 y m 1

/-- Lexicographic order on date triples = Python `datetime` order restricted
to midnight right-hand sides. -/
def tripleLt (a b : ℕ × ℕ × ℕ) : Prop :=
  a.1 < b.1 ∨ (a.1 = b.1 ∧ (a.2.1 < b.2.1 ∨ (a.2.1 = b.2.1 ∧ a.2.2 < b.2.2)))

instance (a b : ℕ × ℕ × ℕ) : Decidable (tripleLt a b) := by
  unfold tripleLt; infer_instance

/-- A Python datetime for the roll selector: a calendar date plus a time of
day (seconds; only its existence matters, never its value). -/
structure PyDateTime where
  year : ℕ
  month : ℕ
  day : ℕ
  sec : ℕ

/-- Date triple of a datetime. -/
def PyDateTime.date (t : PyDateTime) : ℕ × ℕ × ℕ := (t.year, t.month, t.day)

/-- sorted(settings.ALL_CODES) — all twelve delivery months. -/
def ALL_CODES_MONTHS : List ℕ := [1, 2, 3, 4, 5, 6, 7, 8, 9, 10, 11, 12]

/-- sorted(settings.MONTH_CODES) — the quarterly delivery months. -/
def MONTH_CODES_MONTHS : List ℕ := [3, 6, 9, 12]

/-- settings.COMMODITIES. -/
def COMMODITIES : List String := ["BR", "NG", "SU", "W4"]

/-- Expiry candidate of month `m` in year `y` under the roll convention. -/
def rollExpiry (isCommodity : Bool) (y m : ℕ) : ℕ × ℕ × ℕ :=
  if isCommodity then get_first_business_day y m else get_third_thursday y m

/-- Month list iterated by services.actual_futures for the convention. -/
def rollMonths (isCommodity : Bool) : List ℕ :=
  if isCommodity then ALL_CODES_MONTHS else MONTH_CODES_MONTHS

/-- Selection loop of services.actual_futures: the first candidate month of
the current year whose expiry is strictly after `current_date`, else the
first delivery month of the next year (1 for commodities, 3 otherwise).
The source's `if current_date.date() == expiry.date(): continue` arm is a
no-op: the `for` loop advances to the next month regardless. -/
def actualFuturesSel (isCommodity : Bool) (cd : PyDateTime) : ℕ × ℕ :=
  let year := cd.year
  match (rollMonths isCommodity).find?
      (fun m => decide (tripleLt cd.date (rollExpiry isCommodity year m))) with
  | some m => (m, year)
  | none => (if isCommodity then 1 else 3, year + 1)

/-- Single-letter code of delivery month `m` (settings.ALL_CODES; its
restriction to 3/6/9/12 is settings.MONTH_CODES). -/
def monthCode (m : ℕ) : String :=
  if m = 1 then "F" else if m = 2 then "G" else if m = 3 then "H"
  else if m = 4 then "J" else if m = 5 then "K" else if m = 6 then "M"
  else if m = 7 then "N" else if m = 8 then "Q" else if m = 9 then "U"
  else if m = 10 then "V" else if m = 11 then "X" else "Z"

/-- services.actual_futures: base code ++ month letter ++ last digit of the
selected year (`str(sel_year)[-1]` = `sel_year % 10` for positive years). -/
def actual_futures (base : String) (cd : PyDateTime) : String :=
  let sel := actualFuturesSel (base ∈ COMMODITIES) cd
  base ++ monthCode sel.1 ++ toString (sel.2 % 10)

/-! ## Ingestion fetch-day list (http_client.MOEXClient.load_candles)

Instants are whole minutes from the epoch of the rata-die day numbering:
`t = day * 1440 + minuteOfDay`.  The source builds `dates`, the per-day
fetch list: the resume instant first (unconditionally), then every later
calendar day up to today with Saturdays/Sundays filtered out, carrying the
time 06:59.  `services.candles` then requests each listed day from 08:59 to
23:49 of that day. -/

/-- Date list built by load_candles.  `last` is the stored
`get_last_candle_date` result; `none` seeds today 07:00 minus eight weeks.
An empty result models the early `start_date >= end_date` return (the list
is never built empty otherwise). -/
def load_candles_dates (last : Option ℕ) (now : ℕ) : List ℕ :=
  let start := match last with
    | some d => d + 1
    | none => ((now / 1440) * 1440 + 7 * 60) - 8 * 7 * 1440
  if now ≤ start then []
  else
    start :: (((List.range (now / 1440 - start / 1440)).map
        (fun k => start / 1440 + 1 + k)).filter
        (fun d => weekdayOf d < 5)).map (fun d => d * 1440 + (6 * 60 + 59))

/-- Start of the request window of services.candles for a listed instant:
08:59 of its calendar day (`date.replace(hour=8, minute=59)`). -/
def fetchFromMinute (t : ℕ) : ℕ := (t / 1440) * 1440 + (8 * 60 + 59)

/-- End of the request window of services.candles: 23:49 of the day. -/
def fetchTillMinute (t : ℕ) : ℕ := (t / 1440) * 1440 + (23 * 60 + 49)

/-! ## Concrete sample values used by witnesses and counterexamples -/

/-- A fixed function standing in for the normal CDF/PDF where the value is
irrelevant (degenerate branches) or only the CDF symmetry matters
(`1/2 + 1/2 = 1`). -/
noncomputable def phiConst : ℝ → ℝ := fun _ => 1 / 2

/-- A concrete in-the-money call record (F0 = 100, K = 50) with no expiry
date, as the redis layer would deliver it before enrichment. -/
def sampleRec : OptRec :=
  { UNDERLYINGSETTLEPRICE := 100, STRIKE := 50, LASTTRADEDATE := none,
    OPTIONTYPE := "C", PREVOPENPOSITION := 0 }

/-- A concrete expiry-minutes oracle (every date string parses, 0 minutes
to expiry). -/
def em0 : String → Option ℕ := fun _ => some 0

/-- Input fields of a record (those the driver reads, never writes). -/
def inputFields (r : OptRec) : ℝ × ℝ × Option String × String × ℝ :=
  (r.UNDERLYINGSETTLEPRICE, r.STRIKE, r.LASTTRADEDATE, r.OPTIONTYPE, r.PREVOPENPOSITION)

/-- The six price/Greek output fields of a record in a fixed order. -/
def analyticsFields (r : OptRec) : List (Option ℝ) :=
  [r.THEORETICAL_PRICE, r.DELTA, r.GAMMA, r.VEGA, r.THETA, r.GEX]

/-! ## Claim C1 — degenerate-case price -/

/-- C1 fails as stated: on its degenerate branch the batched pricing kernel
returns the bare intrinsic value, not the discounted one.  At F0 = 2, K = 1,
T = 1, r = 1, σ = 0 the kernel yields max(F0-K, 0) = 1, whereas the claimed
discounted intrinsic value is exp(-1)·1 < 1. -/
theorem c1_counterexample :
    black76_numba phiConst 2 1 1 1 0 0 0 0 ≠
      Real.exp (-(1 : ℝ) * 1) * max ((2 : ℝ) - 1) 0 := by
  have hlhs : black76_numba phiConst 2 1 1 1 0 0 0 0 = 1 := by
    unfold black76_numba EPS
    rw [if_pos (by norm_num)]
    norm_num
  rw [hlhs]
  have : Real.exp (-(1 : ℝ) * 1) < 1 := by
    rw [show (-(1 : ℝ) * 1) = -1 by ring]
    exact Real.exp_lt_one_iff.mpr (by norm_num)
  intro h
  rw [show max ((2 : ℝ) - 1) 0 = 1 by norm_num, mul_one] at h
  linarith

/-- C1, amended: for T ≤ 0 or σ ≤ 0 the scalar `black76_price` returns the
discounted intrinsic value exp(-rT)·max(±(F0-K), 0); the batched kernel
`calculate_black76_numba`, on its degenerate branch (any of T, σ, F0, K at
or below 1e-10), returns the undiscounted intrinsic value max(±(F0-K), 0). -/
theorem c1_amended (Phi : ℝ → ℝ) (F0 K T r sigma : ℝ) (ty : String) (ot : ℤ)
    (d1 d2 : ℝ) (hdeg : T ≤ 0 ∨ sigma ≤ 0)
    (hdegK : T ≤ EPS ∨ sigma ≤ EPS ∨ F0 ≤ EPS ∨ K ≤ EPS) :
    black76_price Phi F0 K T r sigma ty =
      Real.exp (-r * T) * (if ty = "C" then max (F0 - K) 0 else max (K - F0) 0) ∧
    black76_numba Phi F0 K T r sigma ot d1 d2 =
      (if ot = 0 then max (F0 - K) 0 else max (K - F0) 0) := by
  constructor
  · unfold black76_price
    rw [if_pos hdeg]
  · unfold black76_numba
    rw [if_pos hdegK]

/-- Witness for `c1_amended` at F0 = K = 1, T = 0, r = 0, σ = 1 (a call). -/
theorem c1_witness :
    black76_price phiConst 1 1 0 0 1 "C" =
      Real.exp (-(0 : ℝ) * 0) *
        (if ("C" : String) = "C" then max ((1 : ℝ) - 1) 0 else max ((1 : ℝ) - 1) 0) ∧
    black76_numba phiConst 1 1 0 0 1 0 0 0 =
      (if (0 : ℤ) = 0 then max ((1 : ℝ) - 1) 0 else max ((1 : ℝ) - 1) 0) :=
  c1_amended phiConst 1 1 0 0 1 "C" 0 0 0 (Or.inl le_rfl)
    (Or.inl (by unfold EPS; norm_num))

/-! ## Claim C2 — degenerate-case Greeks -/

/-- C2 fails as stated: in the degenerate case σ ≤ 0 (with F0 > 0) the
scalar `delta` returns 0, not ±1 scaled by the discount factor.  At F0 = 1,
K = 1, T = 1, r = 0, σ = 0 the claimed value is exp(0)·1 = 1 but the code
returns 0. -/
theorem c2_counterexample :
    delta phiConst 1 1 1 0 0 "C" ≠ Real.exp (-(0 : ℝ) * 1) * 1 := by
  have hlhs : delta phiConst 1 1 1 0 0 "C" = 0 := by
    unfold delta
    rw [if_pos (Or.inl (by unfold validate_positive; norm_num))]
  rw [hlhs, show (-(0 : ℝ) * 1) = 0 by ring, Real.exp_zero, one_mul]
  norm_num

/-- C2, amended: in the degenerate case T ≤ 0 or σ ≤ 0 the scalar gamma,
vega and theta are 0 and the scalar delta is also 0 (never ±discount); the
batched delta kernel treats only T ≤ 1e-10 or F0 ≤ 1e-10 as degenerate (not
σ ≤ 0) and there returns the undiscounted ±1 when F0 > 0, else 0; the
batched gamma/vega/theta kernels return 0 on their degenerate branches. -/
theorem c2_amended (Phi phi : ℝ → ℝ) (F0 K T Tm r sigma : ℝ) (ty : String)
    (ot : ℤ) (d1 d2 td : ℝ) (hdeg : T ≤ 0 ∨ sigma ≤ 0) (hTm : Tm ≤ 0 ∨ sigma ≤ 0) :
    delta Phi F0 K T r sigma ty = 0 ∧
    gamma phi F0 K T r sigma = 0 ∧
    vega phi F0 K T r sigma = 0 ∧
    theta Phi phi F0 K Tm r sigma ty = 0 ∧
    (T ≤ EPS ∨ F0 ≤ EPS →
      delta_numba Phi F0 T r ot d1 =
        if 0 < F0 then (if ot = 0 then 1 else -1) else 0) ∧
    (T ≤ EPS ∨ sigma ≤ EPS ∨ F0 ≤ EPS → gamma_numba phi F0 T r sigma d1 = 0) ∧
    (T ≤ EPS ∨ F0 ≤ EPS → vega_numba phi F0 T r d1 = 0) ∧
    (T ≤ EPS ∨ sigma ≤ EPS ∨ F0 ≤ EPS ∨ K ≤ EPS →
      theta_numba Phi phi F0 K T r sigma ot d1 d2 td = 0) := by
  have hcond : ¬validate_positive F0 K sigma ∨ T ≤ 0 := by
    rcases hdeg with h | h
    · exact Or.inr h
    · exact Or.inl (fun ⟨_, _, hs⟩ => absurd hs (not_lt.mpr h))
  refine ⟨?_, ?_, ?_, ?_, ?_, ?_, ?_, ?_⟩
  · unfold delta; rw [if_pos hcond]
  · unfold gamma; rw [if_pos hcond]
  · unfold vega; rw [if_pos hcond]
  · unfold theta
    rw [if_pos]
    rcases hTm with h | h
    · exact Or.inl (div_nonpos_of_nonpos_of_nonneg h (by positivity))
    · exact Or.inr (fun ⟨_, _, hs⟩ => absurd hs (not_lt.mpr h))
  · intro hk
    unfold delta_numba
    rw [if_pos hk]
    by_cases hF : 0 < F0 <;> by_cases hot : ot = 0 <;> simp [hF, hot]
  · intro hk; unfold gamma_numba; rw [if_pos hk]
  · intro hk; unfold vega_numba; rw [if_pos hk]
  · intro hk; unfold theta_numba; rw [if_pos hk]

/-- Witness for `c2_amended` at F0 = K = 1, T = Tm = 1, r = 0, σ = 0. -/
theorem c2_witness :
    delta phiConst 1 1 1 0 0 "C" = 0 ∧
    gamma phiConst 1 1 1 0 0 = 0 ∧
    vega phiConst 1 1 1 0 0 = 0 ∧
    theta phiConst phiConst 1 1 1 0 0 "C" = 0 ∧
    ((1 : ℝ) ≤ EPS ∨ (1 : ℝ) ≤ EPS →
      delta_numba phiConst 1 1 0 0 0 =
        if (0 : ℝ) < 1 then (if (0 : ℤ) = 0 then 1 else -1) else 0) ∧
    ((1 : ℝ) ≤ EPS ∨ (0 : ℝ) ≤ EPS ∨ (1 : ℝ) ≤ EPS →
      gamma_numba phiConst 1 1 0 0 0 = 0) ∧
    ((1 : ℝ) ≤ EPS ∨ (1 : ℝ) ≤ EPS → vega_numba phiConst 1 1 0 0 = 0) ∧
    ((1 : ℝ) ≤ EPS ∨ (0 : ℝ) ≤ EPS ∨ (1 : ℝ) ≤ EPS ∨ (1 : ℝ) ≤ EPS →
      theta_numba phiConst phiConst 1 1 1 0 0 0 0 0 252 = 0) :=
  c2_amended phiConst phiConst 1 1 1 1 0 0 "C" 0 0 0 252
    (Or.inr le_rfl) (Or.inr le_rfl)

/-! ## Claim C6 — put-call parity of the scalar pricer -/

/-- C6: for valid inputs (F0, K, T, σ all positive) the Black-76 call price
minus the put price equals exp(-rT)·(F0-K), for every CDF `Phi` satisfying
the symmetry Phi(x) + Phi(-x) = 1 of the true normal CDF.  Over exact reals
the identity is exact, so it holds within any floating tolerance. -/
theorem c6_put_call_parity (Phi : ℝ → ℝ) (hsym : ∀ x, Phi x + Phi (-x) = 1)
    (F0 K T r sigma : ℝ) (hF : 0 < F0) (hK : 0 < K) (hT : 0 < T) (hs : 0 < sigma) :
    black76_price Phi F0 K T r sigma "C" - black76_price Phi F0 K T r sigma "P" =
      Real.exp (-r * T) * (F0 - K) := by
  have hdeg : ¬(T ≤ 0 ∨ sigma ≤ 0) := by push_neg; exact ⟨hT, hs⟩
  unfold black76_price
  rw [if_neg hdeg, if_neg hdeg]
  simp only [if_pos rfl, if_neg (by decide : ¬("P" : String) = "C"),
    eq_self_iff_true, if_true]
  set d1 := (Real.log (F0 / K) + 0.5 * sigma ^ 2 * T) / (sigma * Real.sqrt T) with hd1
  set d2 := d1 - sigma * Real.sqrt T with hd2
  linear_combination (Real.exp (-r * T) * F0) * hsym d1 -
    (Real.exp (-r * T) * K) * hsym (d2)

/-- Witness for `c6_put_call_parity` with the constant 1/2 in place of the
CDF (which satisfies the symmetry hypothesis) at F0 = 2, K = 1, T = 1,
r = 0, σ = 1. -/
theorem c6_witness :
    black76_price phiConst 2 1 1 0 1 "C" - black76_price phiConst 2 1 1 0 1 "P" =
      Real.exp (-(0 : ℝ) * 1) * (2 - 1) :=
  c6_put_call_parity phiConst (fun x => by unfold phiConst; norm_num)
    2 1 1 0 1 (by norm_num) (by norm_num) (by norm_num) (by norm_num)

/-! ## Claim C7 — historical volatility with insufficient data -/

/-- C7: whenever the close-price series yields fewer log returns than the
configured rolling window — i.e. has fewer than HIST_WINDOW_MINUTES + 1
rows, which subsumes the fewer-than-2-points case — `hist_vol` returns
`none` (and, being a total function of the data, raises nothing). -/
theorem c7_insufficient_data (data : List (ℕ × ℝ))
    (hshort : data.length < HIST_WINDOW_MINUTES + 1) :
    hist_vol data = none := by
  unfold hist_vol
  by_cases hempty : data.isEmpty
  · rw [if_pos hempty]
  · rw [if_neg hempty]
    have hlen :
        (npDiff ((data.mergeSort (fun a b => decide (a.1 ≤ b.1))).map Prod.snd |>.map
          Real.log)).length < HIST_WINDOW_MINUTES := by
      unfold npDiff
      rw [List.length_zipWith, List.length_tail, List.length_map, List.length_map,
        List.length_mergeSort]
      unfold HIST_WINDOW_MINUTES TRADING_DAYS_PER_YEAR MINUTES_PER_DAY at hshort ⊢
      rw [min_eq_right (Nat.sub_le _ _)]
      omega
    simp only [hlen, if_pos, if_true]

/-- Witness for `c7_insufficient_data` on the empty series. -/
theorem c7_witness : hist_vol [] = none :=
  c7_insufficient_data [] (by unfold HIST_WINDOW_MINUTES TRADING_DAYS_PER_YEAR MINUTES_PER_DAY; norm_num)

/-! ## Claim C3 — sign of the rolling variance

The source takes `np.sqrt(rolling_var)` with no clamp of the variance to
≥ 0, although the spec prescribes one; over exact reals the prefix-sum
variance is provably nonnegative (so the clamp can only ever matter for
floating-point round-off, which the code leaves unguarded). -/

/-- Cauchy-Schwarz for list sums: the square of a sum is at most the length
times the sum of squares. -/
theorem sq_sum_le_length_mul_sum_sq (l : List ℝ) :
    l.sum ^ 2 ≤ l.length * (l.map (fun x => x ^ 2)).sum := by
  induction l with
  | nil => simp
  | cons x xs ih =>
    simp only [List.sum_cons, List.map_cons, List.length_cons]
    push_cast
    have hq : (0 : ℝ) ≤ (xs.map (fun x => x ^ 2)).sum :=
      List.sum_nonneg (by
        intro y hy
        obtain ⟨z, _, rfl⟩ := List.mem_map.mp hy
        positivity)
    rcases Nat.eq_zero_or_pos xs.length with hk | hk
    · obtain rfl : xs = [] := List.length_eq_zero.mp hk
      norm_num
    · have hk1 : (1 : ℝ) ≤ (xs.length : ℝ) := by exact_mod_cast hk
      nlinarith [ih, hq, hk1, sq_nonneg ((xs.length : ℝ) * x - xs.sum),
        mul_nonneg (sub_nonneg.mpr ih) (le_trans zero_le_one hk1)]

/-- Difference of prefix sums at the full length and at `m - n` is the sum
of the last `min n m` elements. -/
theorem cumsumAt_sub (l : List ℝ) (n : ℕ) :
    cumsumAt l l.length - cumsumAt l (l.length - n) = (l.drop (l.length - n)).sum := by
  unfold cumsumAt
  rw [List.take_length]
  have h := List.take_append_drop (l.length - n) l
  calc l.sum - (l.take (l.length - n)).sum
      = ((l.take (l.length - n) ++ l.drop (l.length - n)).sum -
          (l.take (l.length - n)).sum) := by rw [h]
    _ = (l.drop (l.length - n)).sum := by rw [List.sum_append]; ring

/-- C3, exact-arithmetic part: the unclamped rolling variance that
`hist_vol` feeds to `np.sqrt` is nonnegative for every window size and
every log-return series, so the prescribed clamp is exactly a guard against
floating-point round-off (see the recorded failing input for the float64
behaviour of the unclamped code). -/
theorem c3_rolling_var_nonneg (n : ℕ) (l : List ℝ) : 0 ≤ rollingVarLast n l := by
  rcases Nat.eq_zero_or_pos n with hn | hn
  · simp [rollingVarLast, hn]
  · have hq0 : (0 : ℝ) ≤ ((l.drop (l.length - n)).map (fun x => x ^ 2)).sum :=
      List.sum_nonneg (by
        intro y hy
        obtain ⟨z, _, rfl⟩ := List.mem_map.mp hy
        positivity)
    have hS := cumsumAt_sub l n
    have hQ : cumsumAt (l.map fun x => x ^ 2) l.length -
        cumsumAt (l.map fun x => x ^ 2) (l.length - n) =
        ((l.drop (l.length - n)).map fun x => x ^ 2).sum := by
      have h := cumsumAt_sub (l.map fun x => x ^ 2) n
      rwa [List.length_map, ← List.map_drop] at h
    unfold rollingVarLast
    simp only
    rw [hQ, hS]
    set w := l.drop (l.length - n) with hw
    have hwlen : w.length ≤ n := by rw [hw, List.length_drop]; omega
    have key : w.sum ^ 2 ≤ (n : ℝ) * (w.map fun x => x ^ 2).sum := by
      refine le_trans (sq_sum_le_length_mul_sum_sq w) ?_
      exact mul_le_mul_of_nonneg_right (by exact_mod_cast hwlen) hq0
    have hn' : (0 : ℝ) < n := by exact_mod_cast hn
    rw [sub_nonneg, div_pow, div_le_div_iff₀ (by positivity) (by positivity)]
    nlinarith [key, hn']

/-! ## Claims C4 and C10 — batch driver shape -/

/-- Characterisation of the driver (through its wrapper) when the supplied
volatility is a float: empty in/empty out; a malformed expiry date anywhere
makes the `except` handler zero-fill every record; otherwise every record is
enriched row-wise. -/
theorem process_some_eq (Phi phi : ℝ → ℝ) (em : String → Option ℕ)
    (opts : List OptRec) (hv : ℝ) :
    process_asset_options Phi phi em opts (some hv) =
      if opts.isEmpty then opts
      else if opts.any (fun r =>
          match r.LASTTRADEDATE with
          | some s => (em s).isNone
          | none => false) then opts.map (fillFailure hv)
      else opts.map (enrichRow Phi phi em hv) := by
  unfold process_asset_options calculate_all_options_params_numba
  by_cases h : opts.isEmpty
  · simp [h]
  · simp only [h, if_false, Bool.false_eq_true]
    by_cases h2 : opts.any (fun r =>
        match r.LASTTRADEDATE with
        | some s => (em s).isNone
        | none => false) = true
    · simp [h2]
    · simp [h2]

/-- The driver's row update never touches the input fields of a record. -/
theorem enrichRow_inputFields (Phi phi : ℝ → ℝ) (em : String → Option ℕ)
    (hv : ℝ) (r : OptRec) : inputFields (enrichRow Phi phi em hv r) = inputFields r := by
  unfold enrichRow inputFields
  by_cases h : rowValid em hv r <;> simp [h]

/-- C4, amended: with a float volatility and parseable expiry dates, batch
pricing returns one output record per input record in the same order
(N = 0 included), input fields untouched; a row failing the validity mask
(any of F0, K, σ, T at or below 1e-10; non-finite values do not exist over
exact reals) is not skipped but is assigned zero for the price and all
Greeks — not the degenerate-case values of the scalar pricer. -/
theorem c4_amended (Phi phi : ℝ → ℝ) (em : String → Option ℕ) (hv : ℝ)
    (opts : List OptRec)
    (hdates : ∀ r ∈ opts, ∀ s, r.LASTTRADEDATE = some s → (em s).isSome) :
    (process_asset_options Phi phi em opts (some hv)).length = opts.length ∧
    (opts = [] → process_asset_options Phi phi em opts (some hv) = []) ∧
    (∀ i : ℕ, ((process_asset_options Phi phi em opts (some hv))[i]?).map inputFields
        = (opts[i]?).map inputFields) ∧
    (∀ i : ℕ, ∀ r, opts[i]? = some r → ¬rowValid em hv r →
      ((process_asset_options Phi phi em opts (some hv))[i]?).map analyticsFields
        = some [some 0, some 0, some 0, some 0, some 0, some 0]) := by
  have hany : opts.any (fun r =>
      match r.LASTTRADEDATE with
      | some s => (em s).isNone
      | none => false) = false := by
    rw [List.any_eq_false]
    intro r hr
    rcases hdate : r.LASTTRADEDATE with _ | s
    · simp
    · have h2 := hdates r hr s hdate
      simp only [Option.isNone_iff_eq_none]
      intro hnone
      rw [hnone] at h2
      simp at h2
  have hmap : process_asset_options Phi phi em opts (some hv) =
      opts.map (enrichRow Phi phi em hv) := by
    rw [process_some_eq, hany]
    by_cases h : opts.isEmpty
    · rw [if_pos h]
      rw [List.isEmpty_iff] at h
      rw [h]
      rfl
    · rw [if_neg h, if_neg (by simp)]
  refine ⟨?_, ?_, ?_, ?_⟩
  · rw [hmap, List.length_map]
  · intro h; rw [hmap, h]; rfl
  · intro i
    rw [hmap, List.getElem?_map]
    rcases h : opts[i]? with _ | r
    · rfl
    · simp [enrichRow_inputFields]
  · intro i r hr hnv
    rw [hmap, List.getElem?_map, hr]
    simp only [Option.map_some']
    unfold enrichRow analyticsFields
    rw [if_neg hnv]

/-- Witness for `c4_amended` on the one-record list `[sampleRec]` (whose
absent expiry date makes the date hypothesis vacuous). -/
theorem c4_witness :
    (process_asset_options phiConst phiConst em0 [sampleRec] (some 0)).length =
      [sampleRec].length ∧
    ([sampleRec] = ([] : List OptRec) →
      process_asset_options phiConst phiConst em0 [sampleRec] (some 0) = []) ∧
    (∀ i : ℕ, ((process_asset_options phiConst phiConst em0 [sampleRec] (some 0))[i]?).map
        inputFields = ([sampleRec][i]?).map inputFields) ∧
    (∀ i : ℕ, ∀ r, [sampleRec][i]? = some r → ¬rowValid em0 0 r →
      ((process_asset_options phiConst phiConst em0 [sampleRec] (some 0))[i]?).map
        analyticsFields = some [some 0, some 0, some 0, some 0, some 0, some 0]) :=
  c4_amended phiConst phiConst em0 0 [sampleRec]
    (by intro r hr s hs; rw [List.mem_singleton] at hr; subst hr; simp [sampleRec] at hs)

/-- C4 fails as stated: the masked-out row (σ = 0, T = 0, F0 = 100, K = 50)
is assigned price 0.0, while the degenerate-case value prescribed by the
spec for that row is the discounted intrinsic exp(-r·0)·max(F0-K, 0) =
50 ≠ 0. -/
theorem c4_counterexample :
    (process_asset_options phiConst phiConst em0 [sampleRec] (some 0)).map
        (fun r => r.THEORETICAL_PRICE) = [some 0] ∧
    Real.exp (-IV_RATE * 0) * max ((100 : ℝ) - 50) 0 ≠ 0 := by
  constructor
  · have hnv : ¬rowValid em0 0 sampleRec := by
      unfold rowValid tMinutesOf sampleRec EPS
      intro ⟨h1, _, _, _⟩
      norm_num at h1
    rw [process_some_eq]
    simp only [List.isEmpty_cons, List.any_cons, List.any_nil, sampleRec]
    norm_num
    unfold enrichRow
    rw [if_neg (by exact hnv)]
  · rw [mul_zero, Real.exp_zero, one_mul]
    norm_num

/-- C10, amended: with a float volatility the driver never raises
(`Except.ok` always), output length and order match the input, and every
returned record has all eight analytic fields assigned (volatility fields
to round(hv, 4)); when some record's expiry date fails to parse, every
record's price and Greeks are zero-filled.  When the volatility is `None`
and the list non-empty, however, the `except` handler itself raises
TypeError: the driver propagates the exception and the wrapper returns the
records unchanged, without the analytic fields assigned. -/
theorem c10_amended (Phi phi : ℝ → ℝ) (em : String → Option ℕ)
    (opts : List OptRec) (hv : ℝ) :
    (∃ l, calculate_all_options_params_numba Phi phi em opts (some hv) = .ok l) ∧
    (process_asset_options Phi phi em opts (some hv)).length = opts.length ∧
    (∀ i : ℕ, ((process_asset_options Phi phi em opts (some hv))[i]?).map inputFields
        = (opts[i]?).map inputFields) ∧
    (∀ r ∈ process_asset_options Phi phi em opts (some hv),
      r.HIST_VOL = some (pyRound 4 hv) ∧ r.IMPLIED_VOL = some (pyRound 4 hv) ∧
      r.THEORETICAL_PRICE.isSome = true ∧ r.DELTA.isSome = true ∧
      r.GAMMA.isSome = true ∧ r.VEGA.isSome = true ∧
      r.THETA.isSome = true ∧ r.GEX.isSome = true) ∧
    ((∃ r ∈ opts, ∃ s, r.LASTTRADEDATE = some s ∧ em s = none) →
      ∀ r ∈ process_asset_options Phi phi em opts (some hv),
        analyticsFields r = [some 0, some 0, some 0, some 0, some 0, some 0]) ∧
    (opts ≠ [] →
      calculate_all_options_params_numba Phi phi em opts none = .error () ∧
      process_asset_options Phi phi em opts none = opts) := by
  have hproc := process_some_eq Phi phi em opts hv
  refine ⟨?_, ?_, ?_, ?_, ?_, ?_⟩
  · unfold calculate_all_options_params_numba
    by_cases h : opts.isEmpty
    · exact ⟨opts, by rw [if_pos h]⟩
    · by_cases h2 : opts.any (fun r =>
          match r.LASTTRADEDATE with
          | some s => (em s).isNone
          | none => false) = true
      · exact ⟨opts.map (fillFailure hv), by rw [if_neg h]; dsimp only; rw [if_pos h2]⟩
      · exact ⟨opts.map (enrichRow Phi phi em hv), by
          rw [if_neg h]; dsimp only; rw [if_neg h2]⟩
  · rw [hproc]
    split_ifs <;> simp
  · intro i
    rw [hproc]
    split_ifs with h1 h2
    · rfl
    · rw [List.getElem?_map]
      rcases h : opts[i]? with _ | r
      · rfl
      · simp only [Option.map_some']
        unfold fillFailure inputFields
        rfl
    · rw [List.getElem?_map]
      rcases h : opts[i]? with _ | r
      · rfl
      · simp only [Option.map_some']
        rw [enrichRow_inputFields]
  · intro r hr
    rw [hproc] at hr
    split_ifs at hr with h1 h2
    · rw [List.isEmpty_iff] at h1
      rw [h1] at hr
      simp at hr
    · obtain ⟨r0, _, rfl⟩ := List.mem_map.mp hr
      exact ⟨rfl, rfl, rfl, rfl, rfl, rfl, rfl, rfl⟩
    · obtain ⟨r0, _, rfl⟩ := List.mem_map.mp hr
      unfold enrichRow
      by_cases hv0 : rowValid em hv r0
      · rw [if_pos hv0]
        exact ⟨rfl, rfl, rfl, rfl, rfl, rfl, rfl, rfl⟩
      · rw [if_neg hv0]
        exact ⟨rfl, rfl, rfl, rfl, rfl, rfl, rfl, rfl⟩
  · rintro ⟨rbad, hrbad, s, hs, hnone⟩ r hr
    have h1 : opts.isEmpty = false := by
      rcases opts with _ | ⟨a, as⟩
      · simp at hrbad
      · rfl
    have h2 : opts.any (fun r =>
        match r.LASTTRADEDATE with
        | some s => (em s).isNone
        | none => false) = true := by
      rw [List.any_eq_true]
      exact ⟨rbad, hrbad, by rw [hs]; simp [hnone]⟩
    rw [hproc, if_neg (by simp [h1]), if_pos h2] at hr
    obtain ⟨r0, _, rfl⟩ := List.mem_map.mp hr
    unfold analyticsFields fillFailure
    rfl
  · intro hne
    have h1 : ¬opts.isEmpty = true := by simpa [List.isEmpty_iff] using hne
    constructor
    · unfold calculate_all_options_params_numba
      rw [if_neg h1]
    · unfold process_asset_options calculate_all_options_params_numba
      rw [if_neg h1]

/-- C10 fails as stated: when an asset has no historical volatility, the
caller (`MOEXClient.add_params`) passes `hv = None` straight through, the
driver's exception handler itself raises on `float(None)`, and the wrapper
returns the input records unchanged — with no analytic field assigned. -/
theorem c10_counterexample :
    process_asset_options phiConst phiConst em0 [sampleRec] none = [sampleRec] ∧
    sampleRec.THEORETICAL_PRICE = none := by
  refine ⟨?_, rfl⟩
  unfold process_asset_options calculate_all_options_params_numba
  rfl

/-! ## Claim C8 — roll tie rule -/

/-- C8: for either convention, whenever `current_date` falls exactly on the
expiry date of a candidate month `mStar` of its year, the selection never
returns that candidate; moreover every selection either lies in the current
year with an expiry strictly after `current_date`, or rolls to the first
delivery month of the next year. -/
theorem c8_roll_tie (isCommodity : Bool) (cd : PyDateTime) (mStar : ℕ)
    (htie : cd.date = rollExpiry isCommodity cd.year mStar) :
    actualFuturesSel isCommodity cd ≠ (mStar, cd.year) ∧
    (∀ m y, actualFuturesSel isCommodity cd = (m, y) →
      (y = cd.year ∧ tripleLt cd.date (rollExpiry isCommodity cd.year m)) ∨
      y = cd.year + 1) := by
  unfold actualFuturesSel
  dsimp only
  rcases hfind : (rollMonths isCommodity).find?
      (fun m => decide (tripleLt cd.date (rollExpiry isCommodity cd.year m))) with _ | m0
  · constructor
    · intro h
      have h2 := congrArg Prod.snd h
      simp at h2
    · intro m y h
      have h2 := congrArg Prod.snd h
      exact Or.inr h2.symm
  · have hp := List.find?_some hfind
    rw [decide_eq_true_eq] at hp
    constructor
    · intro h
      have hm : m0 = mStar := congrArg Prod.fst h
      rw [hm, ← htie] at hp
      unfold tripleLt at hp
      omega
    · intro m y h
      have hm : m0 = m := congrArg Prod.fst h
      have hy : cd.year = y := congrArg Prod.snd h
      exact Or.inl ⟨hy.symm, hm ▸ hp⟩

/-- Witness for `c8_roll_tie`: 2025-06-19 (at 10:00) is exactly the third
Thursday of June 2025, so the June quarterly contract is skipped. -/
theorem c8_witness :
    actualFuturesSel false ⟨2025, 6, 19, 36000⟩ ≠ (6, 2025) ∧
    (∀ m y, actualFuturesSel false ⟨2025, 6, 19, 36000⟩ = (m, y) →
      (y = 2025 ∧ tripleLt (PyDateTime.date ⟨2025, 6, 19, 36000⟩)
          (rollExpiry false 2025 m)) ∨
      y = 2025 + 1) :=
  c8_roll_tie false ⟨2025, 6, 19, 36000⟩ 6 (by decide)

/-! ## Claim C9 — ingestion resume and weekend filtering -/

/-- C9 fails as stated, in two ways.  First, the resume instant is appended
to the fetch-day list without a weekend check: resuming from a Saturday
bar (day 6 of the rata-die count is a Saturday) puts a Saturday in the
list.  Second, the fetch request for the resume day covers that whole day
from 08:59, so it re-requests bars earlier than D + 1 minute whenever the
last stored bar D is later than 08:59 (here D is Monday 15:00). -/
theorem c9_counterexample :
    (∃ t ∈ load_candles_dates (some (6 * 1440 + 600)) (9 * 1440 + 600),
      5 ≤ weekdayOf (t / 1440)) ∧
    fetchFromMinute ((load_candles_dates (some (8 * 1440 + 900)) (10 * 1440 + 600)).headD 0)
      < 8 * 1440 + 900 + 1 := by decide

/-- C9, amended: the list starts exactly one minute after the last stored
bar; every later element is a strictly later weekday-day, and its request
window starts after D + 1 minute — only the unchecked first element can
fall on a weekend or open a window reaching back before D + 1 minute. -/
theorem c9_amended (last now : ℕ) (hne : last + 1 < now) :
    ∃ rest, load_candles_dates (some last) now = (last + 1) :: rest ∧
      ∀ t ∈ rest, weekdayOf (t / 1440) < 5 ∧ last + 1 < fetchFromMinute t ∧
        last / 1440 < t / 1440 := by
  unfold load_candles_dates
  dsimp only
  rw [if_neg (by omega)]
  refine ⟨_, rfl, ?_⟩
  intro t ht
  rw [List.mem_map] at ht
  obtain ⟨d, hd, rfl⟩ := ht
  rw [List.mem_filter] at hd
  obtain ⟨hd1, hd2⟩ := hd
  rw [List.mem_map] at hd1
  obtain ⟨k, _, rfl⟩ := hd1
  rw [decide_eq_true_eq] at hd2
  have hdiv : (((last + 1) / 1440 + 1 + k) * 1440 + (6 * 60 + 59)) / 1440 =
      (last + 1) / 1440 + 1 + k := by omega
  refine ⟨by rw [hdiv]; exact hd2, ?_, by rw [hdiv]; omega⟩
  unfold fetchFromMinute
  rw [hdiv]
  omega

/-- Witness for `c9_amended`, resuming from Monday 15:00 two days before. -/
theorem c9_witness :
    ∃ rest, load_candles_dates (some (8 * 1440 + 900)) (10 * 1440 + 600) =
        (8 * 1440 + 900 + 1) :: rest ∧
      ∀ t ∈ rest, weekdayOf (t / 1440) < 5 ∧ 8 * 1440 + 900 + 1 < fetchFromMinute t ∧
        (8 * 1440 + 900) / 1440 < t / 1440 :=
  c9_amended (8 * 1440 + 900) (10 * 1440 + 600) (by norm_num)

/-! ## Claim C5 — minutes to expiry -/

/-- One day never contributes negative minutes: the configured clearing
windows are disjoint sub-intervals of the session, so the subtracted
whole-minute overlaps never exceed the whole-minute session length. -/
theorem dayCore_nonneg (ed : Bool) (a : ℕ) : 0 ≤ dayCore ed a := by
  cases ed <;>
    · simp only [dayCore, CLEARING_PERIODS_S, EXPIRY_END_S, TRADING_END_S, List.map_cons,
        List.map_nil, List.sum_cons, List.sum_nil]
      norm_num
      split_ifs <;> omega

/-- A later session start never yields more minutes.  This depends on the
configured times all being whole minutes: the floor divisions by 60 then
interact consistently between the session length and the clearing
overlaps. -/
theorem dayCore_antitone (ed : Bool) {a a' : ℕ} (hle : a ≤ a') :
    dayCore ed a' ≤ dayCore ed a := by
  cases ed <;>
    · simp only [dayCore, CLEARING_PERIODS_S, EXPIRY_END_S, TRADING_END_S, List.map_cons,
        List.map_nil, List.sum_cons, List.sum_nil]
      norm_num
      split_ifs <;> omega

theorem dayMinutes_nonneg (h : List ℕ) (e now cur : ℕ) : 0 ≤ dayMinutes h e now cur := by
  unfold dayMinutes
  split_ifs <;> first
    | exact le_refl 0
    | exact dayCore_nonneg _ _

/-- The session-start clamp of a day, rewritten as a `max` over within-day
offsets. -/
theorem dayMinutes_eq (h : List ℕ) (e now cur : ℕ) :
    dayMinutes h e now cur =
      if 5 ≤ weekdayOf cur ∨ cur ∈ h then 0
      else dayCore (cur = e)
        (if cur = now / 86400 then max TRADING_START_S (now % 86400)
         else TRADING_START_S) := by
  unfold dayMinutes
  by_cases hw : 5 ≤ weekdayOf cur ∨ cur ∈ h
  · rw [if_pos hw, if_pos hw]
  · rw [if_neg hw, if_neg hw]
    congr 1
    unfold TRADING_START_S
    split_ifs <;> omega

/-- As `now` advances, no day at or after the later `now`'s date gains
minutes. -/
theorem dayMinutes_mono (h : List ℕ) (e now now' cur : ℕ) (hnn : now ≤ now')
    (hcur : now' / 86400 ≤ cur) :
    dayMinutes h e now' cur ≤ dayMinutes h e now cur := by
  rw [dayMinutes_eq h e now cur, dayMinutes_eq h e now' cur]
  by_cases hw : 5 ≤ weekdayOf cur ∨ cur ∈ h
  · rw [if_pos hw, if_pos hw]
  · rw [if_neg hw, if_neg hw]
    apply dayCore_antitone
    split_ifs <;> omega

theorem expiry_time_nonneg (h : List ℕ) (e now : ℕ) : 0 ≤ expiry_time h e now := by
  unfold expiry_time
  dsimp only
  split_ifs
  · exact le_refl 0
  · refine List.sum_nonneg ?_
    intro x hx
    rw [List.mem_map] at hx
    obtain ⟨k, _, rfl⟩ := hx
    exact dayMinutes_nonneg _ _ _ _

theorem expiry_time_zero (h : List ℕ) (e now : ℕ)
    (hc : e * 86400 + EXPIRY_END_S ≤ now) : expiry_time h e now = 0 := by
  unfold expiry_time
  dsimp only
  rw [if_pos]
  unfold EXPIRY_END_S at hc ⊢
  omega

theorem expiry_time_mono (h : List ℕ) (e now now' : ℕ) (hnn : now ≤ now') :
    expiry_time h e now' ≤ expiry_time h e now := by
  by_cases hg' : e < now' / 86400 ∨ (now' / 86400 = e ∧ EXPIRY_END_S ≤ now' % 86400)
  · have hz : expiry_time h e now' = 0 := by
      unfold expiry_time; dsimp only; rw [if_pos hg']
    rw [hz]
    exact expiry_time_nonneg h e now
  · have hg : ¬(e < now / 86400 ∨ (now / 86400 = e ∧ EXPIRY_END_S ≤ now % 86400)) := by
      unfold EXPIRY_END_S at hg' ⊢
      omega
    unfold expiry_time
    dsimp only
    rw [if_neg hg', if_neg hg]
    have htle : now / 86400 ≤ now' / 86400 := Nat.div_le_div_right hnn
    have hte : now' / 86400 ≤ e := by
      unfold EXPIRY_END_S at hg'
      omega
    have hsplit : e + 1 - now / 86400 =
        (now' / 86400 - now / 86400) + (e + 1 - now' / 86400) := by omega
    rw [hsplit, List.range_add, List.map_append, List.sum_append, List.map_map]
    have h1 : 0 ≤ ((List.range (now' / 86400 - now / 86400)).map
        (fun k => dayMinutes h e now (now / 86400 + k))).sum := by
      refine List.sum_nonneg ?_
      intro x hx
      rw [List.mem_map] at hx
      obtain ⟨k, _, rfl⟩ := hx
      exact dayMinutes_nonneg _ _ _ _
    have h2 : ((List.range (e + 1 - now' / 86400)).map
          (fun k => dayMinutes h e now' (now' / 86400 + k))).sum ≤
        ((List.range (e + 1 - now' / 86400)).map
          ((fun k => dayMinutes h e now (now / 86400 + k)) ∘
            (fun x => now' / 86400 - now / 86400 + x))).sum := by
      refine List.sum_le_sum ?_
      intro k _
      have harg : now / 86400 + (now' / 86400 - now / 86400 + k) = now' / 86400 + k := by
        omega
      simp only [Function.comp_apply, harg]
      exact dayMinutes_mono h e now now' (now' / 86400 + k) hnn (by omega)
    linarith

/-- C5: `expiry_time` never returns a negative minute count, returns exactly
0 once `now` is at or past the expiry-day close, and is monotonically
non-increasing as `now` advances with the expiry date held fixed — for
every holiday set. -/
theorem c5_minutes_to_expiry (holidays : List ℕ) (e now now' : ℕ) (hnn : now ≤ now') :
    0 ≤ expiry_time holidays e now ∧
    (e * 86400 + EXPIRY_END_S ≤ now → expiry_time holidays e now = 0) ∧
    expiry_time holidays e now' ≤ expiry_time holidays e now :=
  ⟨expiry_time_nonneg holidays e now,
   fun hc => expiry_time_zero holidays e now hc,
   expiry_time_mono holidays e now now' hnn⟩

/-- Witness for `c5_minutes_to_expiry`: expiry on day 3 (a Thursday of the
rata-die count), `now` on day 1 at 10:00 and `now'` a day later. -/
theorem c5_witness :
    0 ≤ expiry_time [] 3 (1 * 86400 + 36000) ∧
    (3 * 86400 + EXPIRY_END_S ≤ 1 * 86400 + 36000 →
      expiry_time [] 3 (1 * 86400 + 36000) = 0) ∧
    expiry_time [] 3 (2 * 86400 + 36000) ≤ expiry_time [] 3 (1 * 86400 + 36000) :=
  c5_minutes_to_expiry [] 3 (1 * 86400 + 36000) (2 * 86400 + 36000) (by norm_num)

end OptionBoard
